import Mathlib

/-!
Shallow embedding of the health-connect frontend's appointment-slot logic:
the fixed 15-minute slot catalog and its lookup helpers (timeSlots utility),
and the doctor-profile schedule editing operations (initialize, toggle,
selected-slots query, clean-for-persistence).
-/

namespace HealthConnect

/-- One catalog time slot: `slotNumber`, wall-clock `startTime`/`endTime`
as `"HH:MM"` strings. -/
structure TimeSlot where
  slotNumber : Int
  startTime : String
  endTime : String
deriving DecidableEq, Repr

/-- A UI grouping block of 8 consecutive slots. -/
structure TimeBlock where
  label : String
  startSlot : Int
  endSlot : Int
  startTime : String
  endTime : String
deriving DecidableEq, Repr

/-- JS `n.toString().padStart(2, '0')` for a natural number. -/
def padStart2 (n : Nat) : String :=
  if n < 10 then "0" ++ toString n else toString n

/-- Split a character list at every occurrence of `c` (JS
`String.prototype.split` with a one-character separator). -/
def splitCh (c : Char) : List Char → List (List Char)
  | [] => [[]]
  | a :: as =>
    match splitCh c as, decide (a = c) with
    | r, true => [] :: r
    | [], false => [[a]]
    | g :: gs, false => (a :: g) :: gs

/-- JS `time.split(':')` as a list of strings. -/
def jsSplitColon (s : String) : List String :=
  (splitCh ':' s.data).map String.mk

/-- Parse a nonempty all-digit character list as a natural number; `none`
otherwise (the well-behaved fragment of JS `Number(...)`). -/
def digitsToNat? (l : List Char) : Option Nat :=
  if l.isEmpty then none
  else
    l.foldl
      (fun acc c =>
        match acc with
        | none => none
        | some n => if c.isDigit then some (n * 10 + (c.toNat - 48)) else none)
      (some 0)

/-- JS `Number(s)` on the digit strings this code feeds it, defaulting to 0. -/
def jsNumber (s : String) : Nat :=
  (digitsToNat? s.data).getD 0

/-- `generateTimeSlots` from the timeSlots utility: loops hours 9..20 and
minutes 0,15,30,45, emitting a slot with a running `slotNumber` counter
starting at 1; end time is start plus 15 minutes with hour carry. -/
def generateTimeSlots : List TimeSlot :=
  let res := (List.range' 9 12).foldl
    (fun acc hour =>
      (List.range' 0 4 15).foldl
        (fun (acc2 : List TimeSlot × Nat) minute =>
          let startTime := padStart2 hour ++ ":" ++ padStart2 minute
          let endHour := if minute + 15 ≥ 60 then hour + 1 else hour
          let endMinute := if minute + 15 ≥ 60 then minute + 15 - 60 else minute + 15
          let endTime := padStart2 endHour ++ ":" ++ padStart2 endMinute
          (acc2.1 ++ [{ slotNumber := (acc2.2 : Int), startTime := startTime, endTime := endTime }],
            acc2.2 + 1))
        acc)
    ([], 1)
  res.1

/-- `FIXED_TIME_SLOTS`: the generated catalog. -/
def FIXED_TIME_SLOTS : List TimeSlot := generateTimeSlots

/-- `TIME_BLOCKS`: the six two-hour UI blocks. -/
def TIME_BLOCKS : List TimeBlock :=
  [ { label := "9:00 AM - 11:00 AM", startSlot := 1, endSlot := 8, startTime := "09:00", endTime := "11:00" },
    { label := "11:00 AM - 1:00 PM", startSlot := 9, endSlot := 16, startTime := "11:00", endTime := "13:00" },
    { label := "1:00 PM - 3:00 PM", startSlot := 17, endSlot := 24, startTime := "13:00", endTime := "15:00" },
    { label := "3:00 PM - 5:00 PM", startSlot := 25, endSlot := 32, startTime := "15:00", endTime := "17:00" },
    { label := "5:00 PM - 7:00 PM", startSlot := 33, endSlot := 40, startTime := "17:00", endTime := "19:00" },
    { label := "7:00 PM - 9:00 PM", startSlot := 41, endSlot := 48, startTime := "19:00", endTime := "21:00" } ]

/-- `getSlotsForBlock`: empty for an out-of-range block index, else the
catalog slots whose slotNumber lies in the block's inclusive range. -/
def getSlotsForBlock (blockIndex : Int) : List TimeSlot :=
  if blockIndex < 0 ∨ (TIME_BLOCKS.length : Int) ≤ blockIndex then []
  else
    match TIME_BLOCKS.get? blockIndex.toNat with
    | some block =>
        FIXED_TIME_SLOTS.filter
          (fun slot => decide (block.startSlot ≤ slot.slotNumber ∧ slot.slotNumber ≤ block.endSlot))
    | none => []

/-- `getBlockForSlot`: first block whose inclusive range contains the slot
number; JS `undefined || null` becomes `none`. -/
def getBlockForSlot (slotNumber : Int) : Option TimeBlock :=
  TIME_BLOCKS.find?
    (fun block => decide (block.startSlot ≤ slotNumber ∧ slotNumber ≤ block.endSlot))

/-- `formatTime12Hour`: 24-hour `"HH:MM"` to 12-hour display with AM/PM. -/
def formatTime12Hour (time : String) : String :=
  let nums := (jsSplitColon time).map jsNumber
  let hours := nums.getD 0 0
  let minutes := nums.getD 1 0
  let period := if hours ≥ 12 then "PM" else "AM"
  let displayHours := if hours = 0 then 12 else if hours > 12 then hours - 12 else hours
  toString displayHours ++ ":" ++ padStart2 minutes ++ " " ++ period

/-- `getSlotByNumber`: first catalog slot with the given number, if any. -/
def getSlotByNumber (slotNumber : Int) : Option TimeSlot :=
  FIXED_TIME_SLOTS.find? (fun slot => decide (slot.slotNumber = slotNumber))

/-- Minutes since midnight of an `"HH:MM"` string (specification helper used
to state "end time is start time plus 15 minutes"). -/
def timeToMinutes (t : String) : Nat :=
  match jsSplitColon t with
  | [h, m] => jsNumber h * 60 + jsNumber m
  | _ => 0

/-- Weekday names used by the doctor-profile schedule. -/
inductive Day where
  | Monday
  | Tuesday
  | Wednesday
  | Thursday
  | Friday
  | Saturday
  | Sunday
deriving DecidableEq, Repr

/-- The fixed day order used by `initializeSchedule`. -/
def weekDays : List Day :=
  [Day.Monday, Day.Tuesday, Day.Wednesday, Day.Thursday, Day.Friday, Day.Saturday, Day.Sunday]

/-- A schedule slot as edited in the profile form (`Slot` interface):
`isAvailable` is a boolean. -/
structure Slot where
  slotNumber : Int
  startTime : String
  endTime : String
  isAvailable : Bool
deriving DecidableEq, Repr

/-- A slot as it may arrive from persisted data, where `isAvailable` can be
absent (JS `undefined`), which `initializeSchedule` defaults to `true`. -/
structure SlotIn where
  slotNumber : Int
  startTime : String
  endTime : String
  isAvailable : Option Bool
deriving DecidableEq, Repr

/-- One weekday's entry of the editing schedule (`Schedule` interface). -/
structure ScheduleDay where
  day : Day
  slots : List Slot
deriving DecidableEq, Repr

/-- One weekday's entry of incoming (possibly partial) schedule data. -/
structure ScheduleIn where
  day : Day
  slots : List SlotIn
deriving DecidableEq, Repr

/-- View a fully-formed slot as incoming data (its `isAvailable` present). -/
def Slot.toIn (s : Slot) : SlotIn :=
  { slotNumber := s.slotNumber, startTime := s.startTime, endTime := s.endTime,
    isAvailable := some s.isAvailable }

/-- View an editing-schedule entry as incoming data. -/
def ScheduleDay.toIn (d : ScheduleDay) : ScheduleIn :=
  { day := d.day, slots := d.slots.map Slot.toIn }

/-- Normalize one incoming slot: keep its fields, default a missing
`isAvailable` to `true` (the `slot.isAvailable ?? true` of the source). -/
def normalizeSlot (slot : SlotIn) : Slot :=
  { slotNumber := slot.slotNumber, startTime := slot.startTime,
    endTime := slot.endTime, isAvailable := slot.isAvailable.getD true }

/-- The per-day body of `initializeSchedule`'s `map`: carry over the first
matching existing entry's slots (normalized), else an empty-slots entry. -/
def initDayEntry (existingSchedule : List ScheduleIn) (day : Day) : ScheduleDay :=
  match existingSchedule.find? (fun s => decide (s.day = day)) with
  | some existingDay => { day := day, slots := existingDay.slots.map normalizeSlot }
  | none => { day := day, slots := [] }

/-- `initializeSchedule` from DoctorProfile: one entry per weekday in the
fixed Monday..Sunday order; an existing day's slots are carried over with
`isAvailable` defaulted to `true` when absent, a missing day gets `[]`. -/
def initializeSchedule (existingSchedule : List ScheduleIn) : List ScheduleDay :=
  weekDays.map (initDayEntry existingSchedule)

/-- JS `Array.prototype.findIndex`, with `-1` rendered as `none`. -/
def findIdxA (p : α → Bool) : List α → Option Nat
  | [] => none
  | a :: as => if p a then some 0 else (findIdxA p as).map (fun n => n + 1)

/-- Replace the element at index `i` by `f` of it (JS copy-then-assign on a
spread array); out-of-range leaves the list unchanged. -/
def modifyIdx (f : α → α) : List α → Nat → List α
  | [], _ => []
  | a :: as, 0 => f a :: as
  | a :: as, n + 1 => a :: modifyIdx f as n

/-- Ascending order on slots by `slotNumber` (the JS sort comparator
`(a, b) => a.slotNumber - b.slotNumber`). -/
def slotLE (a b : Slot) : Prop := a.slotNumber ≤ b.slotNumber

instance : DecidableRel slotLE := fun a b => inferInstanceAs (Decidable (a.slotNumber ≤ b.slotNumber))

instance : IsTotal Slot slotLE := ⟨fun a b => Int.le_total a.slotNumber b.slotNumber⟩

instance : IsTrans Slot slotLE := ⟨fun _ _ _ h h2 => le_trans h h2⟩

/-- The per-entry body of `toggleSlotAvailability`'s `map`: on the targeted
day, flip an existing slot's `isAvailable` at its first index, else insert
the catalog slot with `isAvailable := true` and sort by `slotNumber`;
unknown slot numbers and other days are left unchanged. -/
def toggleDayEntry (day : Day) (slotNumber : Int) (scheduleDay : ScheduleDay) : ScheduleDay :=
  if scheduleDay.day = day then
    match findIdxA (fun s => decide (s.slotNumber = slotNumber)) scheduleDay.slots with
    | some i =>
        { scheduleDay with
          slots := modifyIdx (fun s => { s with isAvailable := !s.isAvailable }) scheduleDay.slots i }
    | none =>
        match FIXED_TIME_SLOTS.find? (fun s => decide (s.slotNumber = slotNumber)) with
        | some fixedSlot =>
            { scheduleDay with
              slots := List.insertionSort slotLE
                (scheduleDay.slots ++
                  [{ slotNumber := fixedSlot.slotNumber, startTime := fixedSlot.startTime,
                     endTime := fixedSlot.endTime, isAvailable := true }]) }
        | none => scheduleDay
  else scheduleDay

/-- `toggleSlotAvailability` from DoctorProfile: map `toggleDayEntry` over
the schedule (so only entries of the targeted weekday can change). -/
def toggleSlotAvailability (schedule : List ScheduleDay) (day : Day) (slotNumber : Int) :
    List ScheduleDay :=
  schedule.map (toggleDayEntry day slotNumber)

/-- `getSelectedSlotsForDay` from DoctorProfile: the available slots' numbers
of the first entry for `day`, `[]` when the day is absent. -/
def getSelectedSlotsForDay (schedule : List ScheduleDay) (day : Day) : List Int :=
  match schedule.find? (fun s => decide (s.day = day)) with
  | some scheduleDay =>
      (scheduleDay.slots.filter (fun slot => slot.isAvailable)).map (fun slot => slot.slotNumber)
  | none => []

/-- The `cleanedSchedule` computation in `handleSubmit`: keep only available
slots in each day, then drop days left with zero slots. -/
def cleanSchedule (schedule : List ScheduleDay) : List ScheduleDay :=
  (schedule.map (fun day => { day with slots := day.slots.filter (fun slot => slot.isAvailable) })).filter
    (fun day => decide (0 < day.slots.length))

/-- The catalog slot as inserted by a toggle: JS `{...fixedSlot,
isAvailable: true}`. -/
def catalogSlot (t : TimeSlot) : Slot :=
  { slotNumber := t.slotNumber, startTime := t.startTime, endTime := t.endTime,
    isAvailable := true }

/-- Flip one slot's availability: JS `{...slot, isAvailable: !slot.isAvailable}`. -/
def flipAvail (s : Slot) : Slot :=
  { s with isAvailable := !s.isAvailable }

/-- The available slot numbers of a slot list, in order (the body of
`getSelectedSlotsForDay` once the day is found). -/
def availNumbers (l : List Slot) : List Int :=
  (l.filter (fun slot => slot.isAvailable)).map (fun slot => slot.slotNumber)

/-- A sample persisted entry (its slot's `isAvailable` missing), used by
concrete witnesses. -/
def sampleDayIn : ScheduleIn :=
  { day := Day.Monday,
    slots := [{ slotNumber := 5, startTime := "10:00", endTime := "10:15",
                isAvailable := none }] }

/-- A sample persisted entry whose slots are not sorted by slotNumber. -/
def sampleUnsorted : ScheduleIn :=
  { day := Day.Monday,
    slots := [{ slotNumber := 6, startTime := "10:15", endTime := "10:30",
                isAvailable := some true },
              { slotNumber := 5, startTime := "10:00", endTime := "10:15",
                isAvailable := some true }] }

/-! ### Helper lemmas about the embedded list operations -/

theorem findIdxA_eq_none {p : α → Bool} {l : List α} :
    findIdxA p l = none ↔ ∀ x ∈ l, ¬ p x := by
  induction l with
  | nil => simp [findIdxA]
  | cons a as ih =>
    by_cases h : p a
    · simp [findIdxA, h]
    · simp [findIdxA, h, ih]

theorem findIdxA_isSome_of_mem {p : α → Bool} {l : List α} {x : α}
    (hx : x ∈ l) (hp : p x) : ∃ j, findIdxA p l = some j := by
  cases hidx : findIdxA p l with
  | some j => exact ⟨j, rfl⟩
  | none => exact absurd hp (findIdxA_eq_none.mp hidx x hx)

theorem findIdxA_get? {p : α → Bool} : ∀ {l : List α} {j : Nat},
    findIdxA p l = some j → ∃ a, l.get? j = some a ∧ p a := by
  intro l
  induction l with
  | nil => intro j h; simp [findIdxA] at h
  | cons a as ih =>
    intro j h
    by_cases hpa : p a
    · simp [findIdxA, hpa] at h
      subst h
      exact ⟨a, rfl, hpa⟩
    · simp [findIdxA, hpa] at h
      obtain ⟨m, hm, rfl⟩ := h
      obtain ⟨b, hb, hpb⟩ := ih hm
      exact ⟨b, hb, hpb⟩

theorem modifyIdx_length {f : α → α} : ∀ (l : List α) (i : Nat),
    (modifyIdx f l i).length = l.length
  | [], _ => rfl
  | _ :: as, 0 => rfl
  | _ :: as, n + 1 => congrArg (· + 1) (modifyIdx_length as n)

theorem modifyIdx_get?_ne {f : α → α} : ∀ (l : List α) (i k : Nat), k ≠ i →
    (modifyIdx f l i).get? k = l.get? k
  | [], _, _, _ => rfl
  | a :: as, 0, 0, h => absurd rfl h
  | a :: as, 0, k + 1, _ => rfl
  | a :: as, i + 1, 0, _ => rfl
  | a :: as, i + 1, k + 1, h =>
    modifyIdx_get?_ne as i k (fun hk => h (congrArg (· + 1) hk))

theorem modifyIdx_get?_eq {f : α → α} : ∀ (l : List α) (i : Nat),
    (modifyIdx f l i).get? i = (l.get? i).map f
  | [], _ => rfl
  | a :: as, 0 => rfl
  | a :: as, i + 1 => modifyIdx_get?_eq as i

theorem findIdxA_modifyIdx {p : α → Bool} {f : α → α}
    (hf : ∀ a, p (f a) = p a) : ∀ (l : List α) (i : Nat),
    findIdxA p (modifyIdx f l i) = findIdxA p l
  | [], _ => rfl
  | a :: as, 0 => by simp [modifyIdx, findIdxA, hf a]
  | a :: as, i + 1 => by simp [modifyIdx, findIdxA, findIdxA_modifyIdx hf as i]

theorem modifyIdx_modifyIdx {f g : α → α} : ∀ (l : List α) (i : Nat),
    modifyIdx f (modifyIdx g l i) i = modifyIdx (fun a => f (g a)) l i
  | [], _ => rfl
  | a :: as, 0 => rfl
  | a :: as, i + 1 => congrArg (a :: ·) (modifyIdx_modifyIdx as i)

theorem modifyIdx_congr_id {f : α → α} (hf : ∀ a, f a = a) : ∀ (l : List α) (i : Nat),
    modifyIdx f l i = l
  | [], _ => rfl
  | a :: as, 0 => congrArg (· :: as) (hf a)
  | a :: as, i + 1 => congrArg (a :: ·) (modifyIdx_congr_id hf as i)

theorem modifyIdx_eq_take_cons_drop {f : α → α} : ∀ {l : List α} {j : Nat} {a : α},
    l.get? j = some a → modifyIdx f l j = l.take j ++ f a :: l.drop (j + 1) := by
  intro l
  induction l with
  | nil => intro j a h; simp at h
  | cons b bs ih =>
    intro j a h
    cases j with
    | zero => simp at h; subst h; rfl
    | succ m => simpa [modifyIdx] using ih h

theorem list_eq_take_cons_drop : ∀ {l : List α} {j : Nat} {a : α},
    l.get? j = some a → l = l.take j ++ a :: l.drop (j + 1) := by
  intro l
  induction l with
  | nil => intro j a h; simp at h
  | cons b bs ih =>
    intro j a h
    cases j with
    | zero => simp at h; subst h; rfl
    | succ m => simpa using ih h

/-! ### Facts about the generated catalog, established by evaluation -/

theorem slotNumber_bounds : ∀ s ∈ FIXED_TIME_SLOTS, 1 ≤ s.slotNumber ∧ s.slotNumber ≤ 48 := by
  decide

theorem slotNumber_pairwise :
    FIXED_TIME_SLOTS.Pairwise (fun a b => a.slotNumber ≠ b.slotNumber) := by
  decide

theorem slotNumber_covers :
    ∀ k < 48, FIXED_TIME_SLOTS.any (fun s => s.slotNumber == Int.ofNat (k + 1)) = true := by
  decide

/-! ### Claim theorems -/

/-- C1: the generated catalog `FIXED_TIME_SLOTS` has exactly 48 slots with
slotNumbers 1..48 in ascending order; slot 1 starts at "09:00" and slot 48
ends at "21:00"; each slot's endTime equals the next slot's startTime; and
every slot's endTime is its startTime plus 15 minutes, staying inside one
day. -/
theorem C1_catalog_contiguous :
    FIXED_TIME_SLOTS.length = 48 ∧
    FIXED_TIME_SLOTS.map (fun s => s.slotNumber) = (List.range' 1 48).map Int.ofNat ∧
    (FIXED_TIME_SLOTS.head?.map (fun s => s.startTime)) = some "09:00" ∧
    (FIXED_TIME_SLOTS.getLast?.map (fun s => s.endTime)) = some "21:00" ∧
    (∀ n < 47, (FIXED_TIME_SLOTS.get? n).map (fun s => s.endTime) =
      (FIXED_TIME_SLOTS.get? (n + 1)).map (fun s => s.startTime)) ∧
    (∀ s ∈ FIXED_TIME_SLOTS,
      timeToMinutes s.endTime = timeToMinutes s.startTime + 15 ∧
      timeToMinutes s.endTime < 24 * 60) := by
  decide

/-- Witness for C1: the adjacency and duration facts hold at concrete
inputs (the pair of slots 1 and 2). -/
theorem C1_catalog_contiguous_witness :
    (FIXED_TIME_SLOTS.get? 0).map (fun s => s.endTime) =
      (FIXED_TIME_SLOTS.get? 1).map (fun s => s.startTime) :=
  C1_catalog_contiguous.2.2.2.2.1 0 (by decide)

/-- C6: formatTime12Hour follows the 12-hour policy on every valid HH:MM
input (hour 0 shows as 12, hours above 12 have 12 subtracted, hour 12 is
unchanged, minutes always two digits), and takes the five spec fixed
points. -/
theorem C6_formatTime12Hour_policy :
    (∀ h < 24, ∀ m < 60,
      formatTime12Hour (padStart2 h ++ ":" ++ padStart2 m) =
        (if h = 0 then "12" else if h > 12 then toString (h - 12) else toString h) ++ ":" ++
          padStart2 m ++ (if h ≥ 12 then " PM" else " AM")) ∧
    formatTime12Hour "00:00" = "12:00 AM" ∧
    formatTime12Hour "09:00" = "9:00 AM" ∧
    formatTime12Hour "12:00" = "12:00 PM" ∧
    formatTime12Hour "13:15" = "1:15 PM" ∧
    formatTime12Hour "23:45" = "11:45 PM" := by
  decide

/-- Witness for C6: the general policy applied at hour 13, minute 15. -/
theorem C6_formatTime12Hour_policy_witness :
    formatTime12Hour (padStart2 13 ++ ":" ++ padStart2 15) =
      (if 13 = 0 then "12" else if 13 > 12 then toString (13 - 12) else toString 13) ++ ":" ++
        padStart2 15 ++ (if 13 ≥ 12 then " PM" else " AM") :=
  C6_formatTime12Hour_policy.1 13 (by decide) 15 (by decide)

/-- C4: the six TIME_BLOCKS cover slotNumbers 1..48 with each number in
exactly one block's inclusive range; getSlotsForBlock on indices 0..5
returns exactly the 8 catalog slots of that block, in catalog (ascending)
order; every out-of-range index, in particular -1 and 6, yields []. -/
theorem C4_blocks_partition :
    (∀ k < 48, (TIME_BLOCKS.countP
      (fun b => decide (b.startSlot ≤ Int.ofNat (k + 1) ∧ Int.ofNat (k + 1) ≤ b.endSlot))) = 1) ∧
    (∀ i < 6, (getSlotsForBlock (Int.ofNat i)).length = 8 ∧
      getSlotsForBlock (Int.ofNat i) = (FIXED_TIME_SLOTS.drop (8 * i)).take 8) ∧
    (∀ j : Int, j < 0 ∨ 6 ≤ j → getSlotsForBlock j = []) := by
  refine ⟨by decide, by decide, ?_⟩
  intro j hj
  have hlen : (TIME_BLOCKS.length : Int) = 6 := by decide
  have hcond : j < 0 ∨ (TIME_BLOCKS.length : Int) ≤ j := by
    rcases hj with h | h
    · exact Or.inl h
    · exact Or.inr (by omega)
  unfold getSlotsForBlock
  exact if_pos hcond

/-- Witness for C4: blocks behave as stated at concrete inputs (slot 17,
block 2, and the out-of-range index -1). -/
theorem C4_blocks_partition_witness :
    (TIME_BLOCKS.countP
      (fun b => decide (b.startSlot ≤ Int.ofNat 17 ∧ Int.ofNat 17 ≤ b.endSlot))) = 1 ∧
    getSlotsForBlock (-1) = [] :=
  ⟨C4_blocks_partition.1 16 (by decide),
   C4_blocks_partition.2.2 (-1) (Or.inl (by decide))⟩

/-- C7: lookups signal absence explicitly: getSlotByNumber yields `none`
exactly outside 1..48 and otherwise the unique catalog slot carrying that
slotNumber; getBlockForSlot yields `none` exactly when no block's inclusive
range contains the number, and otherwise a block whose range does. -/
theorem C7_lookup_absence : ∀ n : Int,
    (getSlotByNumber n = none ↔ ¬(1 ≤ n ∧ n ≤ 48)) ∧
    (∀ s, getSlotByNumber n = some s →
      s ∈ FIXED_TIME_SLOTS ∧ s.slotNumber = n ∧
        ∀ t ∈ FIXED_TIME_SLOTS, t.slotNumber = n → t = s) ∧
    (getBlockForSlot n = none ↔ ∀ b ∈ TIME_BLOCKS, ¬(b.startSlot ≤ n ∧ n ≤ b.endSlot)) ∧
    (∀ b, getBlockForSlot n = some b →
      b ∈ TIME_BLOCKS ∧ b.startSlot ≤ n ∧ n ≤ b.endSlot) := by
  intro n
  refine ⟨⟨?_, ?_⟩, ?_, ⟨?_, ?_⟩, ?_⟩
  · intro hnone hrange
    obtain ⟨hn1, hn2⟩ := hrange
    unfold getSlotByNumber at hnone
    have hall := List.find?_eq_none.mp hnone
    have hk : n.toNat - 1 < 48 := by omega
    have hany := slotNumber_covers (n.toNat - 1) hk
    rw [List.any_eq_true] at hany
    obtain ⟨s, hs, hsn⟩ := hany
    have heq := eq_of_beq hsn
    have h1 : n.toNat - 1 + 1 = n.toNat := by omega
    rw [h1] at heq
    have h2 : Int.ofNat n.toNat = n := by
      simpa using Int.toNat_of_nonneg (by omega : (0 : Int) ≤ n)
    rw [h2] at heq
    exact hall s hs (by simpa using heq)
  · intro hrange
    unfold getSlotByNumber
    rw [List.find?_eq_none]
    intro s hs hsn
    have hb := slotNumber_bounds s hs
    have : s.slotNumber = n := by simpa using hsn
    exact hrange ⟨by omega, by omega⟩
  · intro s hsome
    have hmem := List.mem_of_find?_eq_some hsome
    have hp := List.find?_some hsome
    have hsn : s.slotNumber = n := by simpa using hp
    refine ⟨hmem, hsn, ?_⟩
    intro t ht htn
    by_contra hne
    have hsymm : Symmetric (fun a b : TimeSlot => a.slotNumber ≠ b.slotNumber) := by
      intro a b h e
      exact h e.symm
    have hdiff := slotNumber_pairwise.forall hsymm ht hmem hne
    exact hdiff (htn.trans hsn.symm)
  · intro hnone
    unfold getBlockForSlot at hnone
    intro b hb hcontains
    exact List.find?_eq_none.mp hnone b hb (by simpa using hcontains)
  · intro hall
    unfold getBlockForSlot
    rw [List.find?_eq_none]
    intro b hb hcontains
    exact hall b hb (by simpa using hcontains)
  · intro b hsome
    have hmem := List.mem_of_find?_eq_some hsome
    have hp := List.find?_some hsome
    have := of_decide_eq_true hp
    exact ⟨hmem, this.1, this.2⟩

/-- Witness for C7: lookups at slotNumber 17 (present) and 999 (absent). -/
theorem C7_lookup_absence_witness :
    getSlotByNumber 999 = none ∧
    (∀ b, getBlockForSlot 17 = some b →
      b ∈ TIME_BLOCKS ∧ b.startSlot ≤ 17 ∧ (17 : Int) ≤ b.endSlot) :=
  ⟨(C7_lookup_absence 999).1.mpr (by decide), (C7_lookup_absence 17).2.2.2⟩

/-- C8: toggleSlotAvailability modifies at most the targeted weekday's
entries: any entry whose day differs is returned structurally unchanged at
its position. -/
theorem C8_toggle_frame (schedule : List ScheduleDay) (day : Day) (n : Int) :
    ∀ i e, schedule.get? i = some e → e.day ≠ day →
      (toggleSlotAvailability schedule day n).get? i = some e := by
  intro i e he hne
  unfold toggleSlotAvailability
  rw [List.get?_map, he]
  simp [toggleDayEntry, hne]

/-- Witness for C8: toggling Tuesday leaves a Monday entry unchanged. -/
theorem C8_toggle_frame_witness :
    (toggleSlotAvailability [{ day := Day.Monday, slots := [] }] Day.Tuesday 3).get? 0 =
      some { day := Day.Monday, slots := [] } :=
  C8_toggle_frame [{ day := Day.Monday, slots := [] }] Day.Tuesday 3 0
    { day := Day.Monday, slots := [] } rfl (by decide)

theorem length_filter_pos_iff_any {p : α → Bool} {l : List α} :
    0 < (l.filter p).length ↔ l.any p = true := by
  rw [List.length_pos, Ne, List.filter_eq_nil, List.any_eq_true]
  constructor
  · intro h
    by_contra hc
    exact h (fun a ha hpa => hc ⟨a, ha, hpa⟩)
  · intro ⟨a, ha, hpa⟩ hall
    exact hall a ha hpa

/-- C3: cleaning for persistence keeps, day by day, exactly the available
slots in their original order and drops every day whose filtered slot set is
empty; hence the output has no unavailable slot and no empty day. -/
theorem C3_clean_for_persistence (schedule : List ScheduleDay) :
    cleanSchedule schedule =
      (schedule.filter (fun d => d.slots.any (fun s => s.isAvailable))).map
        (fun d => { d with slots := d.slots.filter (fun s => s.isAvailable) }) ∧
    (∀ e ∈ cleanSchedule schedule, e.slots ≠ [] ∧ ∀ s ∈ e.slots, s.isAvailable) := by
  have h1 : cleanSchedule schedule =
      (schedule.filter (fun d => d.slots.any (fun s => s.isAvailable))).map
        (fun d => { d with slots := d.slots.filter (fun s => s.isAvailable) }) := by
    induction schedule with
    | nil => rfl
    | cons d rest ih =>
      unfold cleanSchedule at ih ⊢
      simp only [List.map_cons, List.filter_cons]
      by_cases h : d.slots.any (fun s => s.isAvailable) = true
      · have hpos : decide (0 < (d.slots.filter (fun s => s.isAvailable)).length) = true :=
          decide_eq_true (length_filter_pos_iff_any.mpr h)
        simp only [h, hpos, if_true, List.map_cons]
        exact congrArg _ ih
      · have hb : d.slots.any (fun s => s.isAvailable) = false := by
          simpa using h
        have hpos : decide (0 < (d.slots.filter (fun s => s.isAvailable)).length) = false := by
          rw [decide_eq_false_iff_not]
          intro hlt
          exact h (length_filter_pos_iff_any.mp hlt)
        simp only [hb, hpos, if_false]
        exact ih
  refine ⟨h1, ?_⟩
  intro e he
  rw [h1] at he
  obtain ⟨d, hd, rfl⟩ := List.mem_map.mp he
  have hq := (List.mem_filter.mp hd).2
  constructor
  · rw [Ne, List.filter_eq_nil]
    rw [List.any_eq_true] at hq
    obtain ⟨s, hsl, hsa⟩ := hq
    intro hall
    exact hall s hsl hsa
  · intro s hs
    exact (List.mem_filter.mp hs).2

/-- Witness for C3: cleaning a two-slot day keeps only the available slot,
and it is available. -/
theorem C3_clean_for_persistence_witness :
    ∀ s ∈ ([{ slotNumber := (5 : Int), startTime := "10:00", endTime := "10:15",
              isAvailable := true }] : List Slot), s.isAvailable := by
  intro s hs
  exact ((C3_clean_for_persistence
      [{ day := Day.Monday,
         slots := [{ slotNumber := 5, startTime := "10:00", endTime := "10:15",
                     isAvailable := true },
                   { slotNumber := 6, startTime := "10:15", endTime := "10:30",
                     isAvailable := false }] }]).2
    { day := Day.Monday,
      slots := [{ slotNumber := 5, startTime := "10:00", endTime := "10:15",
                  isAvailable := true }] } (by decide)).2 s hs

theorem initDayEntry_day (input : List ScheduleIn) (d : Day) :
    (initDayEntry input d).day = d := by
  unfold initDayEntry
  cases input.find? (fun s => decide (s.day = d)) <;> rfl

/-- C5: initializeSchedule returns exactly the seven weekdays in the fixed
Monday..Sunday order; a weekday with a (first) matching input entry carries
that entry's slots over normalized (isAvailable defaulted to true), and a
weekday with no entry gets an empty slot set. -/
theorem C5_initialize_seven_days (input : List ScheduleIn) :
    (initializeSchedule input).map (fun e => e.day) = weekDays ∧
    (initializeSchedule input).length = 7 ∧
    ∀ e ∈ initializeSchedule input,
      (∀ ex, input.find? (fun s => decide (s.day = e.day)) = some ex →
        e.slots = ex.slots.map normalizeSlot) ∧
      (input.find? (fun s => decide (s.day = e.day)) = none → e.slots = []) := by
  refine ⟨?_, ?_, ?_⟩
  · unfold initializeSchedule
    rw [List.map_map]
    have hcongr : ∀ d ∈ weekDays, ((fun e => e.day) ∘ initDayEntry input) d = id d :=
      fun d _ => initDayEntry_day input d
    rw [List.map_congr_left hcongr, List.map_id]
  · unfold initializeSchedule
    rw [List.length_map]
    rfl
  · intro e he
    obtain ⟨d, hd, rfl⟩ := List.mem_map.mp he
    rw [initDayEntry_day input d]
    constructor
    · intro ex hex
      simp only [initDayEntry, hex]
    · intro hnone
      simp only [initDayEntry, hnone]

/-- Witness for C5: the per-day characterization at the Monday member of the
schedule initialized from `[sampleDayIn]`. -/
theorem C5_initialize_seven_days_witness :
    (initDayEntry [sampleDayIn] Day.Monday).slots = sampleDayIn.slots.map normalizeSlot :=
  ((C5_initialize_seven_days [sampleDayIn]).2.2
      (initDayEntry [sampleDayIn] Day.Monday) (by decide)).1 sampleDayIn (by decide)

theorem weekDays_find_self : ∀ d ∈ weekDays, weekDays.find? (fun w => decide (w = d)) = some d := by
  decide

theorem normalizeSlot_toIn (s : Slot) : normalizeSlot (Slot.toIn s) = s := rfl

theorem initDayEntry_eq (es : List ScheduleIn) (d : Day) :
    initDayEntry es d =
      match es.find? (fun s => decide (s.day = d)) with
      | some existingDay => { day := d, slots := existingDay.slots.map normalizeSlot }
      | none => { day := d, slots := [] } := rfl

theorem find?_day_of_init (input : List ScheduleIn) (d : Day) (hd : d ∈ weekDays) :
    ((initializeSchedule input).map ScheduleDay.toIn).find? (fun s => decide (s.day = d)) =
      some (ScheduleDay.toIn (initDayEntry input d)) := by
  unfold initializeSchedule
  rw [List.map_map, List.find?_map]
  have hpred : ((fun s => decide (s.day = d)) ∘ (ScheduleDay.toIn ∘ initDayEntry input)) =
      (fun w => decide (w = d)) := by
    funext w
    simp only [Function.comp, ScheduleDay.toIn, initDayEntry_day]
  rw [hpred, weekDays_find_self d hd]
  rfl

/-- C9: initializeSchedule is idempotent: re-initializing an initialized
schedule (viewed again as incoming data) reproduces it exactly, and the
empty input yields the seven weekdays with empty slot sets. -/
theorem C9_initialize_idempotent (input : List ScheduleIn) :
    initializeSchedule ((initializeSchedule input).map ScheduleDay.toIn) =
      initializeSchedule input ∧
    initializeSchedule [] = weekDays.map (fun d => { day := d, slots := [] }) := by
  refine ⟨?_, by decide⟩
  have hmain : ∀ d ∈ weekDays,
      initDayEntry ((initializeSchedule input).map ScheduleDay.toIn) d =
        initDayEntry input d := by
    intro d hd
    rw [initDayEntry_eq, find?_day_of_init input d hd]
    show ({ day := d,
            slots := ((initDayEntry input d).slots.map Slot.toIn).map normalizeSlot } :
        ScheduleDay) = initDayEntry input d
    rw [List.map_map]
    have hid : ∀ s ∈ (initDayEntry input d).slots, (normalizeSlot ∘ Slot.toIn) s = id s :=
      fun s _ => normalizeSlot_toIn s
    rw [List.map_congr_left hid, List.map_id]
    have hday := initDayEntry_day input d
    rcases hentry : initDayEntry input d with ⟨dd, ss⟩
    rw [hentry] at hday
    simp only at hday
    subst hday
    rfl
  show weekDays.map (initDayEntry ((initializeSchedule input).map ScheduleDay.toIn)) =
    weekDays.map (initDayEntry input)
  exact List.map_congr_left hmain

/-- Witness for C9: re-initializing the schedule initialized from
`[sampleDayIn]` reproduces it. -/
theorem C9_initialize_idempotent_witness :
    initializeSchedule ((initializeSchedule [sampleDayIn]).map ScheduleDay.toIn) =
      initializeSchedule [sampleDayIn] :=
  (C9_initialize_idempotent [sampleDayIn]).1

/-! ### toggleDayEntry case lemmas -/

theorem toggleDayEntry_day (day : Day) (n : Int) (e : ScheduleDay) :
    (toggleDayEntry day n e).day = e.day := by
  unfold toggleDayEntry
  split
  · split
    · rfl
    · split
      · rfl
      · rfl
  · rfl

theorem toggleDayEntry_other {day : Day} {n : Int} {e : ScheduleDay} (h : ¬ e.day = day) :
    toggleDayEntry day n e = e := by
  unfold toggleDayEntry
  rw [if_neg h]

theorem toggleDayEntry_flip {day : Day} {n : Int} {e : ScheduleDay} (hde : e.day = day)
    {j : Nat} (hidx : findIdxA (fun s => decide (s.slotNumber = n)) e.slots = some j) :
    toggleDayEntry day n e =
      { e with slots := modifyIdx (fun s => { s with isAvailable := !s.isAvailable }) e.slots j } := by
  unfold toggleDayEntry
  rw [if_pos hde, hidx]

theorem toggleDayEntry_insert {day : Day} {n : Int} {e : ScheduleDay} (hde : e.day = day)
    (hidx : findIdxA (fun s => decide (s.slotNumber = n)) e.slots = none)
    {t : TimeSlot} (ht : FIXED_TIME_SLOTS.find? (fun s => decide (s.slotNumber = n)) = some t) :
    toggleDayEntry day n e =
      { e with
        slots := List.insertionSort slotLE
          (e.slots ++ [{ slotNumber := t.slotNumber, startTime := t.startTime,
                         endTime := t.endTime, isAvailable := true }]) } := by
  unfold toggleDayEntry
  rw [if_pos hde, hidx, ht]

theorem toggleDayEntry_unknown {day : Day} {n : Int} {e : ScheduleDay} (hde : e.day = day)
    (hidx : findIdxA (fun s => decide (s.slotNumber = n)) e.slots = none)
    (ht : FIXED_TIME_SLOTS.find? (fun s => decide (s.slotNumber = n)) = none) :
    toggleDayEntry day n e = e := by
  unfold toggleDayEntry
  rw [if_pos hde, hidx, ht]

/-- C2: toggle semantics: on the targeted day, an existing slotNumber has
its isAvailable flipped in place at its first index (same length, every
other position untouched, the slot stays); a slotNumber absent from the day
but present in the catalog is inserted with isAvailable := true and the
day's slots re-sorted ascending by slotNumber; a slotNumber that is in
neither leaves the entire schedule unchanged. -/
theorem C2_toggle_semantics (schedule : List ScheduleDay) (day : Day) (n : Int) :
    ((∀ e ∈ schedule, e.day = day → ∀ s ∈ e.slots, s.slotNumber ≠ n) →
      getSlotByNumber n = none →
      toggleSlotAvailability schedule day n = schedule) ∧
    (∀ i e e', schedule.get? i = some e →
      (toggleSlotAvailability schedule day n).get? i = some e' →
      e'.day = e.day ∧
      (e.day = day →
        ((∃ s ∈ e.slots, s.slotNumber = n) →
          ∃ j, findIdxA (fun s => decide (s.slotNumber = n)) e.slots = some j ∧
            e'.slots.length = e.slots.length ∧
            (∀ k, k ≠ j → e'.slots.get? k = e.slots.get? k) ∧
            (∀ s, e.slots.get? j = some s →
              e'.slots.get? j = some { s with isAvailable := !s.isAvailable })) ∧
        ((∀ s ∈ e.slots, s.slotNumber ≠ n) →
          ∀ t, getSlotByNumber n = some t →
            e'.slots.Perm (e.slots ++
              [{ slotNumber := t.slotNumber, startTime := t.startTime,
                 endTime := t.endTime, isAvailable := true }]) ∧
            e'.slots.Pairwise slotLE))) := by
  constructor
  · intro hnone hcat
    unfold getSlotByNumber at hcat
    unfold toggleSlotAvailability
    have hself : ∀ e ∈ schedule, toggleDayEntry day n e = id e := by
      intro e he
      by_cases hde : e.day = day
      · have hidx : findIdxA (fun s => decide (s.slotNumber = n)) e.slots = none := by
          rw [findIdxA_eq_none]
          intro x hx
          simp only [decide_eq_true_eq]
          exact hnone e he hde x hx
        exact toggleDayEntry_unknown hde hidx hcat
      · exact toggleDayEntry_other hde
    rw [List.map_congr_left hself, List.map_id]
  · intro i e e' he he'
    rw [toggleSlotAvailability, List.get?_map, he] at he'
    have he'eq : e' = toggleDayEntry day n e := by
      cases he'
      rfl
    subst he'eq
    refine ⟨toggleDayEntry_day day n e, ?_⟩
    intro hde
    constructor
    · intro hex
      obtain ⟨s, hs, hsn⟩ := hex
      obtain ⟨j, hidx⟩ := findIdxA_isSome_of_mem (p := fun s => decide (s.slotNumber = n)) hs
        (by simp only [decide_eq_true_eq]; exact hsn)
      refine ⟨j, hidx, ?_, ?_, ?_⟩
      · rw [toggleDayEntry_flip hde hidx]
        exact modifyIdx_length e.slots j
      · intro k hk
        rw [toggleDayEntry_flip hde hidx]
        exact modifyIdx_get?_ne e.slots j k hk
      · intro s0 hs0
        rw [toggleDayEntry_flip hde hidx]
        show (modifyIdx (fun s => { s with isAvailable := !s.isAvailable }) e.slots j).get? j =
          some { s0 with isAvailable := !s0.isAvailable }
        rw [modifyIdx_get?_eq, hs0]
        rfl
    · intro hnone t ht
      unfold getSlotByNumber at ht
      have hidx : findIdxA (fun s => decide (s.slotNumber = n)) e.slots = none := by
        rw [findIdxA_eq_none]
        intro x hx
        simp only [decide_eq_true_eq]
        exact hnone x hx
      rw [toggleDayEntry_insert hde hidx ht]
      exact ⟨List.perm_insertionSort slotLE _, List.sorted_insertionSort slotLE _⟩

/-- Witness for C2: toggling the invalid slotNumber 999 leaves a concrete
schedule unchanged. -/
theorem C2_toggle_semantics_witness :
    toggleSlotAvailability [{ day := Day.Monday, slots := [] }] Day.Monday 999 =
      [{ day := Day.Monday, slots := [] }] :=
  (C2_toggle_semantics [{ day := Day.Monday, slots := [] }] Day.Monday 999).1
    (by decide) (by decide)

/-! ### Double-toggle and the selected-slots view (C10) -/

theorem availNumbers_double_toggle (day : Day) (n : Int) {t : TimeSlot}
    (ht : FIXED_TIME_SLOTS.find? (fun s => decide (s.slotNumber = n)) = some t)
    (e : ScheduleDay) :
    (availNumbers (toggleDayEntry day n (toggleDayEntry day n e)).slots).Perm
      (availNumbers e.slots) := by
  by_cases hde : e.day = day
  · cases hidx : findIdxA (fun s => decide (s.slotNumber = n)) e.slots with
    | some j =>
      have h1 := toggleDayEntry_flip hde hidx
      have hde2 : (toggleDayEntry day n e).day = day := by
        rw [toggleDayEntry_day]
        exact hde
      have hidx2 : findIdxA (fun s => decide (s.slotNumber = n))
          (toggleDayEntry day n e).slots = some j := by
        rw [h1]
        show findIdxA (fun s => decide (s.slotNumber = n))
          (modifyIdx flipAvail e.slots j) = some j
        rw [findIdxA_modifyIdx (p := fun s : Slot => decide (s.slotNumber = n)) (f := flipAvail)
          (fun a => rfl), hidx]
      have h2 := toggleDayEntry_flip hde2 hidx2
      rw [h2, h1]
      show (availNumbers (modifyIdx flipAvail (modifyIdx flipAvail e.slots j) j)).Perm
        (availNumbers e.slots)
      have hff : ∀ a : Slot, flipAvail (flipAvail a) = a := by
        intro a
        simp [flipAvail, Bool.not_not]
      rw [modifyIdx_modifyIdx, modifyIdx_congr_id hff]
    | none =>
      have h1 := toggleDayEntry_insert hde hidx ht
      have htn : t.slotNumber = n := by
        have hp := List.find?_some ht
        simpa using hp
      have hde2 : (toggleDayEntry day n e).day = day := by
        rw [toggleDayEntry_day]
        exact hde
      have hLeq : (toggleDayEntry day n e).slots =
          List.insertionSort slotLE (e.slots ++ [catalogSlot t]) := by
        rw [h1]
        rfl
      have hperm : (toggleDayEntry day n e).slots.Perm (e.slots ++ [catalogSlot t]) := by
        rw [hLeq]
        exact List.perm_insertionSort slotLE _
      have hxmem : catalogSlot t ∈ (toggleDayEntry day n e).slots := by
        rw [hLeq, List.mem_insertionSort]
        exact List.mem_append_right _ (List.mem_singleton_self _)
      have hpx : (fun s : Slot => decide (s.slotNumber = n)) (catalogSlot t) = true := by
        simp [catalogSlot, htn]
      obtain ⟨j, hj⟩ :=
        findIdxA_isSome_of_mem (p := fun s => decide (s.slotNumber = n)) hxmem hpx
      obtain ⟨a, haj, hpa⟩ := findIdxA_get? hj
      have han : a.slotNumber = n := by simpa using hpa
      have hamem := List.get?_mem haj
      have hax : a = catalogSlot t := by
        rw [hLeq, List.mem_insertionSort] at hamem
        rcases List.mem_append.mp hamem with hin | hin
        · exact absurd (decide_eq_true han) (findIdxA_eq_none.mp hidx a hin)
        · simpa using hin
      have haj' : (toggleDayEntry day n e).slots.get? j = some (catalogSlot t) := by
        rw [← hax]
        exact haj
      have h2 := toggleDayEntry_flip hde2 hj
      rw [h2]
      show (availNumbers (modifyIdx flipAvail (toggleDayEntry day n e).slots j)).Perm
        (availNumbers e.slots)
      have hmod : modifyIdx flipAvail (toggleDayEntry day n e).slots j =
          ((toggleDayEntry day n e).slots.take j) ++
            flipAvail (catalogSlot t) :: ((toggleDayEntry day n e).slots.drop (j + 1)) :=
        modifyIdx_eq_take_cons_drop haj'
      have hdecomp : (toggleDayEntry day n e).slots =
          ((toggleDayEntry day n e).slots.take j) ++
            catalogSlot t :: ((toggleDayEntry day n e).slots.drop (j + 1)) :=
        list_eq_take_cons_drop haj'
      have hneg : ¬ ((fun s : Slot => s.isAvailable) (flipAvail (catalogSlot t)) = true) := by
        simp [flipAvail, catalogSlot]
      have hpos : (fun s : Slot => s.isAvailable) (catalogSlot t) = true := rfl
      have hfilter1 : (modifyIdx flipAvail (toggleDayEntry day n e).slots j).filter
            (fun s => s.isAvailable) =
          ((toggleDayEntry day n e).slots.take j).filter (fun s => s.isAvailable) ++
            ((toggleDayEntry day n e).slots.drop (j + 1)).filter (fun s => s.isAvailable) := by
        rw [hmod, List.filter_append, List.filter_cons_of_neg hneg]
      have hfilter2 : (toggleDayEntry day n e).slots.filter (fun s => s.isAvailable) =
          ((toggleDayEntry day n e).slots.take j).filter (fun s => s.isAvailable) ++
            catalogSlot t :: ((toggleDayEntry day n e).slots.drop (j + 1)).filter
              (fun s => s.isAvailable) := by
        conv_lhs => rw [hdecomp]
        rw [List.filter_append, List.filter_cons_of_pos hpos]
      have hfx : List.filter (fun s : Slot => s.isAvailable) [catalogSlot t] = [catalogSlot t] := by
        simp [catalogSlot]
      have hfperm : ((toggleDayEntry day n e).slots.filter (fun s => s.isAvailable)).Perm
          ((e.slots.filter (fun s => s.isAvailable)) ++ [catalogSlot t]) := by
        have hp := hperm.filter (fun s => s.isAvailable)
        rw [List.filter_append, hfx] at hp
        exact hp
      have hstep1 : (catalogSlot t ::
          (((toggleDayEntry day n e).slots.take j).filter (fun s => s.isAvailable) ++
            ((toggleDayEntry day n e).slots.drop (j + 1)).filter (fun s => s.isAvailable))).Perm
          ((toggleDayEntry day n e).slots.filter (fun s => s.isAvailable)) := by
        rw [hfilter2]
        exact List.perm_middle.symm
      have hstep2 := (hstep1.trans hfperm).trans
        (List.perm_append_singleton (catalogSlot t) (e.slots.filter (fun s => s.isAvailable)))
      have hkey := hstep2.cons_inv
      unfold availNumbers
      rw [hfilter1]
      exact hkey.map (fun s => s.slotNumber)
  · rw [toggleDayEntry_other hde, toggleDayEntry_other hde]

/-- C10 (counterexample): on the initialized schedule whose Monday slots are
unsorted ([6, 5]), toggling catalog slotNumber 7 twice re-sorts the day, so
getSelectedSlotsForDay Monday changes from [6, 5] to [5, 6]: the claimed
sequence equality fails even though 7 is in the catalog. -/
theorem C10_counterexample_order :
    (∃ u ∈ FIXED_TIME_SLOTS, u.slotNumber = 7) ∧
    ¬ (getSelectedSlotsForDay
        (toggleSlotAvailability
          (toggleSlotAvailability (initializeSchedule [sampleUnsorted]) Day.Monday 7)
          Day.Monday 7) Day.Monday =
      getSelectedSlotsForDay (initializeSchedule [sampleUnsorted]) Day.Monday) := by
  decide

/-- C10 (amended): for every initialized schedule, weekday and catalog
slotNumber, toggling twice yields a schedule whose getSelectedSlotsForDay
result is, for every weekday, a permutation of the original one (same
available slot numbers with multiplicity; the sequences coincide when each
day's slots are sorted). -/
theorem C10_double_toggle_selected_perm (input : List ScheduleIn) (day : Day) (n : Int)
    {t : TimeSlot} (ht : getSlotByNumber n = some t) :
    ∀ d, (getSelectedSlotsForDay
        (toggleSlotAvailability (toggleSlotAvailability (initializeSchedule input) day n) day n)
        d).Perm
      (getSelectedSlotsForDay (initializeSchedule input) d) := by
  intro d
  unfold getSlotByNumber at ht
  show (getSelectedSlotsForDay
      (((initializeSchedule input).map (toggleDayEntry day n)).map (toggleDayEntry day n)) d).Perm _
  rw [List.map_map]
  unfold getSelectedSlotsForDay
  rw [List.find?_map]
  have hpred : ((fun s => decide (s.day = d)) ∘ (toggleDayEntry day n ∘ toggleDayEntry day n)) =
      (fun s => decide (s.day = d)) := by
    funext e
    simp only [Function.comp, toggleDayEntry_day]
  rw [hpred]
  cases hfind : (initializeSchedule input).find? (fun s => decide (s.day = d)) with
  | none => exact List.Perm.refl _
  | some e =>
    show (availNumbers ((toggleDayEntry day n ∘ toggleDayEntry day n) e).slots).Perm
      (availNumbers e.slots)
    exact availNumbers_double_toggle day n ht e

/-- Witness for amended C10: double-toggling catalog slot 7 on Monday keeps
the selected Monday slot numbers a permutation of the original. -/
theorem C10_double_toggle_selected_perm_witness :
    (getSelectedSlotsForDay
        (toggleSlotAvailability
          (toggleSlotAvailability (initializeSchedule [sampleDayIn]) Day.Monday 7)
          Day.Monday 7) Day.Monday).Perm
      (getSelectedSlotsForDay (initializeSchedule [sampleDayIn]) Day.Monday) :=
  C10_double_toggle_selected_perm [sampleDayIn] Day.Monday 7
    (t := { slotNumber := 7, startTime := "10:30", endTime := "10:45" }) (by decide) Day.Monday

end HealthConnect
